import Mathlib

/-!
Metrology, `Units/detail/to_string.h`.

A shallow embedding of the quantity-to-string helper

```
template<typename T = double>
std::string to_string(T quantity, const char* unit, const char* format)
{
    std::size_t len = std::snprintf(nullptr, 0, format, quantity, unit);
    std::vector<char> buf(len + 1);
    std::snprintf(&buf[0], buf.size(), format, quantity, unit);
    return std::string(buf.cbegin(), buf.cend() - 1);
}
```

The function is four statements over two library facilities: `std::snprintf`
and `std::vector<char>`.  Both are modelled explicitly:

* `snprintf` follows ISO C 7.21.6.5: it returns the number of characters the
  complete output has (or a negative value), stores at most `n - 1` of them
  followed by a NUL, and stores nothing when `n` is zero.  What the complete
  output *is* comes from a conversion engine, a parameter `F` of the model.
  `printf_with` below is the engine of ISO C 7.21.6.1 (directives with flags,
  field width, precision and length modifier) over any numeric type, the
  numeric conversions being its parameter; `printf` is its instance for an
  `int` under `%d`, `%i` and a finite `double` under `%f`, `%F`.
* machine integers are `Nat`/`Int` with explicit reduction modulo `2 ^ w`.

Allocation failure (memory exhaustion) is not modelled: `vector n` always
yields `n` zero bytes.
-/

namespace Metrology

/-! ## Data model -/

/-- One `char` of the target: a byte. -/
abbrev Byte := UInt8

/-- The bytes stored at a `const char*`.  A C string ends at its first NUL
byte; `cstr` gives the contents proper. -/
abbrev CString := List Byte

/-- The contents of the C string stored at `s`: everything before the first NUL. -/
def cstr (s : CString) : List Byte := s.takeWhile (fun b => b != 0)

/-- The UTF-8 bytes of a string literal. -/
def utf8 (s : String) : List Byte := s.toUTF8.data.toList

/-- The integer widths of a target the header is built for.  Such a target
has an `int` of at least 16 bits that is not wider than `std::size_t`, so that
`INT_MAX < SIZE_MAX`. -/
structure Platform where
  /-- Width `w` of `std::size_t` in bits. -/
  size_bits : Nat
  /-- Width of `int` in bits. -/
  int_bits : Nat
  /-- An `int` has at least 16 bits. -/
  int_min_width : 16 ≤ int_bits
  /-- An `int` is not wider than `std::size_t`. -/
  int_le_size : int_bits ≤ size_bits

/-- Largest value of `std::size_t`: `2 ^ w - 1`. -/
def Platform.SIZE_MAX (P : Platform) : Nat := 2 ^ P.size_bits - 1

/-- Largest value of `int`. -/
def Platform.INT_MAX (P : Platform) : Nat := 2 ^ (P.int_bits - 1) - 1

/-- Smallest value of `int`. -/
def Platform.INT_MIN (P : Platform) : Int := -(2 ^ (P.int_bits - 1) : Int)

/-- The usual 64-bit data model: 32-bit `int`, 64-bit `std::size_t`. -/
def LP64 : Platform := ⟨64, 32, by decide, by decide⟩

/-- The usual 32-bit data model: 32-bit `int`, 32-bit `std::size_t`. -/
def ILP32 : Platform := ⟨32, 32, by decide, by decide⟩

/-- Ways in which a call leaves defined behaviour. -/
inductive Fault where
  /-- Element access or iterator arithmetic outside the buffer
  (`buf[0]`, `buf.cend() - 1` on an empty vector). -/
  | out_of_range
  /-- The destination passed to `snprintf` is shorter than the size `n` it was given. -/
  | buffer_overrun
  /-- The format and arguments are outside what the formatting facility defines. -/
  | undefined_format
deriving DecidableEq

/-- What the formatting facility makes of `(format, quantity, unit)`. -/
inductive Rendered where
  /-- The complete output, before any truncation to a buffer. -/
  | chars (out : List Byte)
  /-- An encoding error with code `k`, reported as a negative `int`. -/
  | failed (k : Nat)
  /-- No behaviour defined (mismatched or unsupported directive). -/
  | undefined
deriving DecidableEq

/-- A conversion engine: format, then the two variadic arguments in the order
the source passes them (`quantity`, `unit`). -/
abbrev Formatter (Q : Type) := CString → Q → CString → Rendered

/-! ## Library facilities used by `to_string` -/

/-- Overwrite the front of `buf` with `data`. -/
def store (buf data : List Byte) : List Byte := data ++ buf.drop data.length

/-- Model of `std::snprintf(s, n, format, quantity, unit)` (ISO C 7.21.6.5).

The destination `s` is given by the bytes accessible through the pointer
(`nullptr` has none).  The result is the destination afterwards and the `int`
returned: the length of the complete output, `-1` when that length is not
representable in `int`, or for an encoding error with code `k` the negative
`int` `-(k mod (INT_MAX + 1)) - 1`, so that `failed 0` reports `-1`.  With
`n = 0` nothing is stored; otherwise the first `n - 1` output bytes and a NUL
are stored. -/
def snprintf {Q : Type} (P : Platform) (F : Formatter Q) (s : List Byte) (n : Nat)
    (format : CString) (quantity : Q) (unit : CString) : Except Fault (List Byte × Int) :=
  match F format quantity unit with
  | .undefined => .error .undefined_format
  | .failed k => .ok (s, Int.negSucc (k % (P.INT_MAX + 1)))
  | .chars out =>
    if P.INT_MAX < out.length then .ok (s, -1)
    else if n = 0 then .ok (s, (out.length : Int))
    else if s.length < n then .error .buffer_overrun
    else .ok (store s (out.take (n - 1) ++ [0]), (out.length : Int))

/-- Conversion of an `int` to `std::size_t`: reduction modulo `2 ^ w`. -/
def to_size_t (P : Platform) (r : Int) : Nat := (r % (2 ^ P.size_bits : Int)).toNat

/-- Addition in `std::size_t`: modulo `2 ^ w`. -/
def size_add (P : Platform) (a b : Nat) : Nat := (a + b) % 2 ^ P.size_bits

/-- The constructor `std::vector<char> buf(n)`: `n` value-initialised (zero) bytes. -/
def vector (n : Nat) : List Byte := List.replicate n 0

/-! ## The function -/

/-- The function `to_string(quantity, unit, format)`, statement by statement. -/
def to_string {Q : Type} (P : Platform) (F : Formatter Q) (quantity : Q)
    (unit format : CString) : Except Fault (List Byte) :=
  -- std::size_t len = std::snprintf(nullptr, 0, format, quantity, unit);
  match snprintf P F [] 0 format quantity unit with
  | .error e => .error e
  | .ok (_, r) =>
    let len : Nat := to_size_t P r
    -- std::vector<char> buf(len + 1);
    let buf : List Byte := vector (size_add P len 1)
    -- std::snprintf(&buf[0], buf.size(), format, quantity, unit);
    -- (`buf[0]` needs an element 0; the value returned is not used)
    if buf.length = 0 then .error .out_of_range
    else
      match snprintf P F buf buf.length format quantity unit with
      | .error e => .error e
      | .ok (buf, _) =>
        -- return std::string(buf.cbegin(), buf.cend() - 1);
        -- (`buf.cend() - 1` needs a last element; the range is all bytes before it)
        if buf.length = 0 then .error .out_of_range
        else .ok (buf.take (buf.length - 1))

/-! ## The conversion engine (ISO C 7.21.6.1) -/

/-- The flag characters of a conversion specification. -/
structure Flags where
  /-- Flag `-`: left-justify within the field. -/
  minus : Bool
  /-- Flag `+`: always begin a signed conversion with a sign. -/
  plus : Bool
  /-- Flag space: prefix a space when a signed conversion has no sign. -/
  space : Bool
  /-- Flag `#`: alternative form. -/
  hash : Bool
  /-- Flag `0`: pad with leading zeros instead of spaces. -/
  zero : Bool
deriving DecidableEq

/-- No flag given. -/
def Flags.none : Flags := ⟨false, false, false, false, false⟩

/-- A conversion specification `%[flags][width][.precision][length]conv`.
A missing field width is width `0`; `len` holds the length modifier (empty,
or one of `hh h l ll j z t L`); `conv` is the conversion specifier letter. -/
structure ConvSpec where
  flags : Flags
  width : Nat
  prec : Option Nat
  len : List Byte
  conv : Byte
deriving DecidableEq

/-- The specification with no flags, width, precision or length modifier:
`%d`, `%s`, ... -/
def ConvSpec.plain (conv : Byte) : ConvSpec := ⟨Flags.none, 0, Option.none, [], conv⟩

/-- A directive of a format: an ordinary byte copied unchanged, or a
conversion specification consuming the next argument. -/
inductive Directive where
  | lit (b : Byte)
  | spec (c : ConvSpec)
deriving DecidableEq

/-- A finite `double`: `mant * 2 ^ exp`. -/
structure Double where
  mant : Int
  exp : Int
deriving DecidableEq

/-- The exact value of a `Double`. -/
def Double.toRat (d : Double) : ℚ := (d.mant : ℚ) * (2 : ℚ) ^ d.exp

/-- The numeric argument `T quantity`: an `int` or a `double`. -/
inductive Quantity where
  | int (v : Int)
  | dbl (d : Double)
deriving DecidableEq

/-- A variadic argument as the conversion engine sees it: the quantity, of
whatever numeric type `Q`, or the unit string. -/
inductive Arg (Q : Type) where
  | num (q : Q)
  | str (s : CString)

/-- Where the scan of a format stands. -/
inductive PState where
  /-- Outside a conversion specification. -/
  | text
  /-- After `%` and some flags. -/
  | flags (f : Flags)
  /-- Inside the field width. -/
  | width (f : Flags) (w : Nat)
  /-- Inside the precision (after `.`). -/
  | prec (f : Flags) (w : Nat) (p : Nat)
  /-- Inside the length modifier. -/
  | len (f : Flags) (w : Nat) (p : Option Nat) (m : List Byte)
deriving DecidableEq

/-- Is `b` one of `'0'..'9'`? -/
def isDigit (b : Byte) : Bool := 48 ≤ b.toNat && b.toNat ≤ 57

/-- The value of the decimal digit `b`. -/
def digitVal (b : Byte) : Nat := b.toNat - 48

/-- Does `b` start a length modifier: one of `h l j z t L`? -/
def isLenMod (b : Byte) : Bool :=
  b == 104 || b == 108 || b == 106 || b == 122 || b == 116 || b == 76

/-- Can `b` be a conversion specifier: an ASCII letter?  Which letters are
defined for which argument is decided at conversion. -/
def isConv (b : Byte) : Bool :=
  (65 ≤ b.toNat && b.toNat ≤ 90) || (97 ≤ b.toNat && b.toNat ≤ 122)

/-- Close a conversion specification at specifier `b`. -/
def finish (f : Flags) (w : Nat) (p : Option Nat) (m : List Byte) (b : Byte)
    (rest : Option (List Directive)) : Option (List Directive) :=
  if isConv b then rest.map (fun ds => Directive.spec ⟨f, w, p, m, b⟩ :: ds) else Option.none

/-- Split a format into directives, following the grammar of ISO C
7.21.6.1p4; the scan stops at the terminating NUL.  The result is `none`
where that grammar is left (an unfinished specification, a specifier that is
no letter, flags on `%%`) and for a `*` width or precision: a `*` takes its
value from one more `int` argument, and the call passes only `quantity` and
`unit`. -/
def parse : PState → CString → Option (List Directive)
  | .text, [] => some []
  | .flags _, [] => Option.none
  | .width _ _, [] => Option.none
  | .prec _ _ _, [] => Option.none
  | .len _ _ _ _, [] => Option.none
  | .text, b :: bs =>
    if b = 0 then some []
    else if b = 37 then parse (.flags Flags.none) bs
    else (parse .text bs).map (fun ds => Directive.lit b :: ds)
  | .flags f, b :: bs =>
    if b = 45 then parse (.flags ⟨true, f.plus, f.space, f.hash, f.zero⟩) bs
    else if b = 43 then parse (.flags ⟨f.minus, true, f.space, f.hash, f.zero⟩) bs
    else if b = 32 then parse (.flags ⟨f.minus, f.plus, true, f.hash, f.zero⟩) bs
    else if b = 35 then parse (.flags ⟨f.minus, f.plus, f.space, true, f.zero⟩) bs
    else if b = 48 then parse (.flags ⟨f.minus, f.plus, f.space, f.hash, true⟩) bs
    else if isDigit b then parse (.width f (digitVal b)) bs
    else if b = 46 then parse (.prec f 0 0) bs
    else if b = 37 then
      if f = Flags.none then (parse .text bs).map (fun ds => Directive.lit 37 :: ds)
      else Option.none
    else if isLenMod b then parse (.len f 0 Option.none [b]) bs
    else finish f 0 Option.none [] b (parse .text bs)
  | .width f w, b :: bs =>
    if isDigit b then parse (.width f (10 * w + digitVal b)) bs
    else if b = 46 then parse (.prec f w 0) bs
    else if isLenMod b then parse (.len f w Option.none [b]) bs
    else finish f w Option.none [] b (parse .text bs)
  | .prec f w p, b :: bs =>
    if isDigit b then parse (.prec f w (10 * p + digitVal b)) bs
    else if isLenMod b then parse (.len f w (some p) [b]) bs
    else finish f w (some p) [] b (parse .text bs)
  | .len f w p m, b :: bs =>
    if (m = [104] ∧ b = 104) ∨ (m = [108] ∧ b = 108) then parse (.len f w p [b, b]) bs
    else finish f w p m b (parse .text bs)

/-- The decimal digits of `n`, most significant first (`"0"` for zero). -/
def digits (n : Nat) : List Byte := (Nat.toDigits 10 n).map Char.toUInt8

/-- The sign of a signed conversion. -/
def signOf (f : Flags) (neg : Bool) : List Byte :=
  if neg then [45] else if f.plus then [43] else if f.space then [32] else []

/-- Lay `sign` and `body` out in a field of width `w`: padded with spaces on
the right under `-`, else with zeros after the sign under `0` (when
`zeroOk`), else with spaces on the left.  A converted value wider than the
field is never truncated. -/
def field (f : Flags) (w : Nat) (zeroOk : Bool) (sign body : List Byte) : List Byte :=
  let n := sign.length + body.length
  if f.minus then sign ++ body ++ List.replicate (w - n) 32
  else if f.zero && zeroOk then sign ++ List.replicate (w - n) 48 ++ body
  else List.replicate (w - n) 32 ++ sign ++ body

/-- Conversions `%d`, `%i`: signed decimal; the precision is the minimum number of digits
(default 1; zero with precision 0 gives no digits). -/
def convInt (c : ConvSpec) (v : Int) : Option (List Byte) :=
  if c.flags.hash then Option.none
  else
    let p := c.prec.getD 1
    let ds := if v = 0 ∧ p = 0 then [] else digits v.natAbs
    let body := List.replicate (p - ds.length) 48 ++ ds
    some (field c.flags c.width c.prec.isNone (signOf c.flags (decide (v < 0))) body)

/-- The magnitude of `d` times `10 ^ p`, rounded to the nearest integer, ties to even. -/
def scaled (d : Double) (p : Nat) : Nat :=
  let num := d.mant.natAbs * 10 ^ p * 2 ^ d.exp.toNat
  let den := 2 ^ (-d.exp).toNat
  let q := num / den
  let r := num % den
  if den < 2 * r ∨ (2 * r = den ∧ q % 2 = 1) then q + 1 else q

/-- Conversions `%f`, `%F`: `[-]ddd.ddd` with `p` digits after the point (default 6);
no point when `p = 0` unless `#` is given. -/
def convFloat (c : ConvSpec) (d : Double) : Option (List Byte) :=
  let p := c.prec.getD 6
  let n := scaled d p
  let ip := digits (n / 10 ^ p)
  let fr := digits (n % 10 ^ p)
  let frac : List Byte :=
    if p = 0 then (if c.flags.hash then [46] else [])
    else 46 :: (List.replicate (p - fr.length) 48 ++ fr)
  some (field c.flags c.width true (signOf c.flags (decide (d.mant < 0))) (ip ++ frac))

/-- Conversion `%s`: the bytes of the string up to its NUL, at most
`precision` of them, laid out in the field.  The flags `#` and `0` are
undefined for it; `+` and space concern signed conversions only and change
nothing here. -/
def convStr (c : ConvSpec) (s : CString) : Option (List Byte) :=
  if c.flags.hash || c.flags.zero then Option.none
  else
    let body := match c.prec with
      | Option.none => cstr s
      | some p => (cstr s).take p
    some (field c.flags c.width false [] body)

/-- Convert one argument under one specification.  How the quantity is
converted is the parameter `numeric` (it says `none` where the specification
does not fit the quantity); the unit string is converted by `%s` only. -/
def convert {Q : Type} (numeric : ConvSpec → Q → Option (List Byte)) (c : ConvSpec) :
    Arg Q → Option (List Byte)
  | .num q => numeric c q
  | .str s => if c.conv = 115 ∧ c.len = [] then convStr c s else Option.none

/-- Produce the output of a directive list, consuming arguments left to
right.  Too few arguments is undefined; excess arguments are ignored. -/
def render {Q : Type} (numeric : ConvSpec → Q → Option (List Byte)) :
    List Directive → List (Arg Q) → Option (List Byte)
  | [], _ => some []
  | .lit b :: ds, args => (render numeric ds args).map (fun out => b :: out)
  | .spec _ :: _, [] => Option.none
  | .spec c :: ds, a :: args =>
    match convert numeric c a, render numeric ds args with
    | some piece, some out => some (piece ++ out)
    | _, _ => Option.none

/-- The conversion engine for `(format, quantity, unit)` over any numeric
type `Q`, given the numeric conversions of `Q`. -/
def printf_with {Q : Type} (numeric : ConvSpec → Q → Option (List Byte)) : Formatter Q :=
  fun format quantity unit =>
    match parse .text format with
    | Option.none => .undefined
    | some ds =>
      match render numeric ds [.num quantity, .str unit] with
      | Option.none => .undefined
      | some out => .chars out

/-- The numeric conversions of an `int` (`%d`, `%i`) and of a finite `double`
(`%f`, `%F`, also written `%lf`, `%lF`). -/
def convNum (c : ConvSpec) : Quantity → Option (List Byte)
  | .int v => if (c.conv = 100 ∨ c.conv = 105) ∧ c.len = [] then convInt c v else Option.none
  | .dbl d =>
    if (c.conv = 102 ∨ c.conv = 70) ∧ (c.len = [] ∨ c.len = [108]) then convFloat c d
    else Option.none

/-- The conversion engine for an `int` or `double` quantity. -/
def printf : Formatter Quantity := printf_with convNum

/-- The numeric conversions of a `long` (`%ld`, `%li`). -/
def convLong (c : ConvSpec) (v : Int) : Option (List Byte) :=
  if (c.conv = 100 ∨ c.conv = 105) ∧ c.len = [108] then convInt c v else Option.none

/-- The conversion specifications of a directive list, in order. -/
def specsOf : List Directive → List ConvSpec
  | [] => []
  | .lit _ :: ds => specsOf ds
  | .spec c :: ds => c :: specsOf ds

/-- The literal bytes in front of the first conversion specification. -/
def litsBefore : List Directive → List Byte
  | [] => []
  | .lit b :: ds => b :: litsBefore ds
  | .spec _ :: _ => []

/-- The directives behind the first conversion specification. -/
def afterFirst : List Directive → List Directive
  | [] => []
  | .lit _ :: ds => afterFirst ds
  | .spec _ :: ds => ds

deriving instance DecidableEq for Except

/-! ## Integer facts -/

theorem Platform.INT_MAX_succ (P : Platform) : P.INT_MAX + 1 = 2 ^ (P.int_bits - 1) := by
  have h : 0 < 2 ^ (P.int_bits - 1) := Nat.two_pow_pos _
  unfold Platform.INT_MAX
  omega

theorem Platform.int_max_lt (P : Platform) : P.INT_MAX + 1 < 2 ^ P.size_bits := by
  rw [P.INT_MAX_succ]
  have h16 := P.int_min_width
  have hle := P.int_le_size
  calc 2 ^ (P.int_bits - 1) < 2 ^ P.int_bits := Nat.pow_lt_pow_right (by decide) (by omega)
    _ ≤ 2 ^ P.size_bits := Nat.pow_le_pow_right (by decide) hle

theorem Platform.int_max_ge (P : Platform) : 32767 ≤ P.INT_MAX := by
  have h16 := P.int_min_width
  have h : 2 ^ 15 ≤ 2 ^ (P.int_bits - 1) := Nat.pow_le_pow_right (by decide) (by omega)
  unfold Platform.INT_MAX
  omega

theorem to_size_t_nonneg (P : Platform) (n : Nat) (h : n < 2 ^ P.size_bits) :
    to_size_t P (n : Int) = n := by
  unfold to_size_t
  have h1 : ((n : Int)) % ((2 : Int) ^ P.size_bits) = (n : Int) := by
    apply Int.emod_eq_of_lt (by omega)
    exact_mod_cast h
  rw [h1]
  simp

theorem to_size_t_neg (P : Platform) (r : Int) (hneg : r < 0)
    (hmin : -((2 : Int) ^ P.size_bits) ≤ r) :
    (to_size_t P r : Int) = (2 : Int) ^ P.size_bits + r := by
  unfold to_size_t
  have h1 : r % ((2 : Int) ^ P.size_bits) = r + (2 : Int) ^ P.size_bits := by
    rw [← Int.add_emod_self]
    apply Int.emod_eq_of_lt <;> omega
  rw [h1, Int.toNat_of_nonneg (by omega)]
  omega

/-! ## The two passes -/

theorem vector_length (n : Nat) : (vector n).length = n := by
  simp [vector]

theorem store_vector (out : List Byte) :
    store (vector (out.length + 1)) (out ++ [0]) = out ++ [0] := by
  simp [store, vector]

/-- The dry run: what a non-negative return says about the complete output. -/
theorem snprintf_dry_nonneg {Q : Type} (P : Platform) (F : Formatter Q) (format : CString)
    (quantity : Q) (unit : CString) (s : List Byte) (N : Int)
    (h : snprintf P F [] 0 format quantity unit = .ok (s, N)) (h0 : 0 ≤ N) :
    ∃ out, F format quantity unit = .chars out ∧ out.length ≤ P.INT_MAX ∧
      (out.length : Int) = N := by
  unfold snprintf at h
  split at h
  · cases h
  · simp only [Except.ok.injEq, Prod.mk.injEq] at h
    obtain ⟨-, h⟩ := h
    rw [← h] at h0
    exact absurd h0 (by simp [Int.negSucc_lt_zero])
  · rename_i out hF
    split at h
    · simp only [Except.ok.injEq, Prod.mk.injEq] at h
      omega
    · simp only [↓reduceIte, Except.ok.injEq, Prod.mk.injEq] at h
      exact ⟨out, hF, by omega, h.2⟩

/-- The value `snprintf` returns is an `int`. -/
theorem snprintf_int_range {Q : Type} (P : Platform) (F : Formatter Q) (s : List Byte) (n : Nat)
    (format : CString) (quantity : Q) (unit : CString) (t : List Byte) (r : Int)
    (h : snprintf P F s n format quantity unit = .ok (t, r)) :
    P.INT_MIN ≤ r ∧ r ≤ (P.INT_MAX : Int) := by
  have hpow : ((P.INT_MAX : Int)) + 1 = (2 : Int) ^ (P.int_bits - 1) := by
    have := P.INT_MAX_succ
    exact_mod_cast this
  unfold snprintf at h
  unfold Platform.INT_MIN
  split at h
  · cases h
  · rename_i k _
    simp only [Except.ok.injEq, Prod.mk.injEq] at h
    obtain ⟨-, h⟩ := h
    have hk : k % (P.INT_MAX + 1) < P.INT_MAX + 1 := Nat.mod_lt _ (by omega)
    rw [← h, Int.negSucc_eq]
    omega
  · rename_i out _
    split at h
    · simp only [Except.ok.injEq, Prod.mk.injEq] at h
      omega
    · split at h
      · simp only [Except.ok.injEq, Prod.mk.injEq] at h
        omega
      · split at h
        · cases h
        · simp only [Except.ok.injEq, Prod.mk.injEq] at h
          omega

/-- The second pass into a zeroed buffer of `N + 1` bytes stores all `N`
output bytes and the terminator. -/
theorem snprintf_second_pass {Q : Type} (P : Platform) (F : Formatter Q) (format : CString)
    (quantity : Q) (unit : CString) (out : List Byte)
    (hF : F format quantity unit = .chars out) (hle : out.length ≤ P.INT_MAX) :
    snprintf P F (vector (out.length + 1)) (out.length + 1) format quantity unit
      = .ok (out ++ [0], (out.length : Int)) := by
  unfold snprintf
  rw [hF]
  simp only [vector_length, Nat.add_sub_cancel, List.take_length, store_vector]
  rw [if_neg (by omega), if_neg (by omega), if_neg (by omega)]

/-- When the complete output fits both `int` and the buffer size
computation, the call returns it whole. -/
theorem to_string_of_chars {Q : Type} (P : Platform) (F : Formatter Q) (quantity : Q)
    (unit format : CString) (out : List Byte)
    (hF : F format quantity unit = .chars out) (hle : out.length ≤ P.INT_MAX)
    (hlt : out.length + 1 < 2 ^ P.size_bits) :
    to_string P F quantity unit format = .ok out := by
  have hdry : snprintf P F [] 0 format quantity unit = .ok ([], (out.length : Int)) := by
    unfold snprintf
    rw [hF]
    simp only []
    rw [if_neg (by omega)]
    simp
  have hsz : size_add P (to_size_t P (out.length : Int)) 1 = out.length + 1 := by
    rw [to_size_t_nonneg P _ (by omega)]
    exact Nat.mod_eq_of_lt hlt
  unfold to_string
  rw [hdry]
  simp only [hsz, vector_length, snprintf_second_pass P F format quantity unit out hF hle]
  simp

/-- When the dry run returns `-1`, the buffer is empty and the call leaves
defined behaviour at `&buf[0]`. -/
theorem to_string_of_minus_one {Q : Type} (P : Platform) (F : Formatter Q) (quantity : Q)
    (unit format : CString) (s : List Byte)
    (h : snprintf P F [] 0 format quantity unit = .ok (s, -1)) :
    to_string P F quantity unit format = .error .out_of_range := by
  have h1 : (to_size_t P (-1) : Int) = (2 : Int) ^ P.size_bits + -1 :=
    to_size_t_neg P (-1) (by decide) (by
      have : (0 : Int) < (2 : Int) ^ P.size_bits := by positivity
      omega)
  have hpos : 0 < 2 ^ P.size_bits := Nat.two_pow_pos _
  have h2 : to_size_t P (-1) + 1 = 2 ^ P.size_bits := by
    have : ((to_size_t P (-1) + 1 : Nat) : Int) = ((2 ^ P.size_bits : Nat) : Int) := by
      push_cast
      omega
    exact_mod_cast this
  unfold to_string
  rw [h]
  simp [size_add, h2, vector]

/-! ## Facts about the conversion engine -/

theorem utf8_eq (s : String) : utf8 s = s.data.flatMap String.utf8EncodeChar := rfl

theorem utf8_append (s t : String) : utf8 (s ++ t) = utf8 s ++ utf8 t := by
  simp only [utf8_eq, String.data_append, List.flatMap_append]

theorem digitChar_ascii (m : Nat) : (Nat.digitChar m).val ≤ 127 := by
  by_cases h : m < 16
  · interval_cases m <;> decide
  · unfold Nat.digitChar
    iterate 16 rw [if_neg (by omega)]
    decide

theorem toDigitsCore_ascii (f : Nat) : ∀ (n : Nat) (acc : List Char),
    (∀ c ∈ acc, c.val ≤ 127) → ∀ c ∈ Nat.toDigitsCore 10 f n acc, c.val ≤ 127 := by
  induction f with
  | zero =>
    intro n acc hacc c hc
    simp only [Nat.toDigitsCore] at hc
    exact hacc c hc
  | succ f ih =>
    intro n acc hacc c hc
    simp only [Nat.toDigitsCore] at hc
    have hacc2 : ∀ c ∈ Nat.digitChar (n % 10) :: acc, c.val ≤ 127 := by
      intro c hc
      rcases List.mem_cons.mp hc with h | h
      · rw [h]
        exact digitChar_ascii _
      · exact hacc c h
    split at hc
    · exact hacc2 c hc
    · exact ih _ _ hacc2 c hc

theorem flatMap_utf8_ascii : ∀ (l : List Char), (∀ c ∈ l, c.val ≤ 127) →
    l.flatMap String.utf8EncodeChar = l.map Char.toUInt8
  | [], _ => rfl
  | c :: l, h => by
    have hc : c.val ≤ 127 := h c (List.mem_cons_self _ _)
    have ht := flatMap_utf8_ascii l (fun d hd => h d (List.mem_cons_of_mem _ hd))
    simp only [List.flatMap_cons, List.map_cons, ht]
    simp [String.utf8EncodeChar, hc, Char.toUInt8]

/-- The digits the engine produces are the bytes of `Nat.repr`. -/
theorem utf8_nat_repr (n : Nat) : utf8 (Nat.repr n) = digits n := by
  rw [utf8_eq]
  exact flatMap_utf8_ascii _ (toDigitsCore_ascii _ _ _ (by simp))

theorem digits_length_pos (n : Nat) : 1 ≤ (digits n).length := by
  unfold digits Nat.toDigits
  rw [List.length_map]
  simp only [Nat.toDigitsCore]
  split
  · simp
  · rw [Nat.toDigitsCore_lens_eq]
    omega

theorem field_width_zero (f : Flags) (z : Bool) (sign body : List Byte) :
    field f 0 z sign body = sign ++ body := by
  unfold field
  split_ifs <;> simp

/-- Plain `%d`: an optional minus sign and the digits of the magnitude. -/
theorem convInt_plain (v : Int) :
    convInt (ConvSpec.plain 100) v = some (utf8 (Int.repr v)) := by
  have key : ∀ n : Nat, (1 : Nat) - (digits n).length = 0 := fun n => by
    have := digits_length_pos n
    omega
  cases v with
  | ofNat m =>
    have hm : ¬ ((m : Int) < 0) := by omega
    simp [convInt, ConvSpec.plain, Flags.none, field_width_zero, signOf, Int.repr,
      utf8_nat_repr, hm, key]
  | negSucc m =>
    have hd : utf8 "-" = [45] := by decide
    simp [convInt, ConvSpec.plain, Flags.none, field_width_zero, signOf, Int.repr,
      utf8_append, utf8_nat_repr, hd, Int.negSucc_lt_zero, Int.natAbs_negSucc, key]

/-- A `%s` without field width or precision copies the string and nothing else. -/
theorem convStr_no_width (c : ConvSpec) (hw : c.width = 0) (hp : c.prec = Option.none)
    (s : CString) :
    convStr c s = if c.flags.hash || c.flags.zero then Option.none else some (cstr s) := by
  unfold convStr
  rw [hw, hp]
  simp [field_width_zero]

theorem convStr_plain (s : CString) : convStr (ConvSpec.plain 115) s = some (cstr s) := by
  rw [convStr_no_width _ rfl rfl]
  rfl

theorem cstr_nil : cstr [] = [] := rfl

theorem cstr_replicate (n : Nat) (b : Byte) (hb : b ≠ 0) :
    cstr (List.replicate n b) = List.replicate n b := by
  unfold cstr
  rw [List.takeWhile_replicate]
  simp [hb]

theorem render_no_spec {Q : Type} (numeric : ConvSpec → Q → Option (List Byte)) :
    ∀ (ds : List Directive), specsOf ds = [] →
    ∀ args, render numeric ds args = some (litsBefore ds)
  | [], _, _ => rfl
  | .lit b :: ds, h, args => by
    simp only [specsOf] at h
    simp [render, litsBefore, render_no_spec numeric ds h args]
  | .spec c :: ds, h, _ => by
    simp [specsOf] at h

theorem render_first_spec {Q : Type} (numeric : ConvSpec → Q → Option (List Byte)) :
    ∀ (ds : List Directive) (c : ConvSpec) (cs : List ConvSpec),
    specsOf ds = c :: cs → ∀ (a : Arg Q) (args : List (Arg Q)),
    specsOf (afterFirst ds) = cs ∧
    render numeric ds (a :: args) =
      (match convert numeric c a, render numeric (afterFirst ds) args with
        | some x, some r => some (litsBefore ds ++ (x ++ r))
        | _, _ => Option.none)
  | [], c, cs, h, _, _ => by
    simp [specsOf] at h
  | .lit b :: ds, c, cs, h, a, args => by
    simp only [specsOf] at h
    obtain ⟨h1, h2⟩ := render_first_spec numeric ds c cs h a args
    refine ⟨by simpa [afterFirst] using h1, ?_⟩
    simp only [render, h2, afterFirst, litsBefore]
    cases convert numeric c a <;> cases render numeric (afterFirst ds) args <;> simp
  | .spec d :: ds, c, cs, h, a, args => by
    simp only [specsOf, List.cons.injEq] at h
    obtain ⟨h1, h2⟩ := h
    subst h1
    refine ⟨by simpa [afterFirst] using h2, ?_⟩
    simp only [render, afterFirst, litsBefore, List.nil_append]

/-- The output of a format with exactly two conversion specifications. -/
theorem render_two_specs {Q : Type} (numeric : ConvSpec → Q → Option (List Byte))
    (ds : List Directive) (c1 c2 : ConvSpec)
    (h : specsOf ds = [c1, c2]) (a b : Arg Q) :
    render numeric ds [a, b] =
      (match convert numeric c1 a, convert numeric c2 b with
        | some x, some y =>
          some (litsBefore ds ++ (x ++ (litsBefore (afterFirst ds) ++
            (y ++ litsBefore (afterFirst (afterFirst ds))))))
        | _, _ => Option.none) := by
  obtain ⟨h1, e1⟩ := render_first_spec numeric ds c1 [c2] h a [b]
  obtain ⟨h2, e2⟩ := render_first_spec numeric (afterFirst ds) c2 [] h1 b []
  rw [e1, e2, render_no_spec numeric _ h2]
  cases convert numeric c1 a <;> cases convert numeric c2 b <;> simp

/-- When the complete output is longer than `INT_MAX`, the dry run returns
`-1` and the call leaves defined behaviour. -/
theorem to_string_of_too_long {Q : Type} (P : Platform) (F : Formatter Q) (quantity : Q)
    (unit format : CString) (out : List Byte)
    (hF : F format quantity unit = .chars out) (hlong : P.INT_MAX < out.length) :
    snprintf P F [] 0 format quantity unit = .ok ([], -1) ∧
    to_string P F quantity unit format = .error .out_of_range := by
  have hdry : snprintf P F [] 0 format quantity unit = .ok ([], -1) := by
    unfold snprintf
    rw [hF]
    simp only []
    rw [if_pos hlong]
  exact ⟨hdry, to_string_of_minus_one P F quantity unit format [] hdry⟩

theorem parse_int_str :
    parse .text (utf8 "%d %s") =
      some [.spec (ConvSpec.plain 100), .lit 32, .spec (ConvSpec.plain 115)] := by
  decide

theorem parse_wide_int_str :
    parse .text (utf8 "%2147483647d %s") =
      some [.spec ⟨Flags.none, 2147483647, Option.none, [], 100⟩, .lit 32,
        .spec (ConvSpec.plain 115)] := by
  decide

/-- The output of `"%d %s"`. -/
theorem printf_int_str (q : Int) (u : CString) :
    printf (utf8 "%d %s") (.int q) u = .chars (utf8 (Int.repr q) ++ utf8 " " ++ cstr u) := by
  have hs : utf8 " " = [32] := by decide
  have hint : convNum (ConvSpec.plain 100) (.int q) = some (utf8 (Int.repr q)) := by
    simp only [convNum, ConvSpec.plain, true_or, and_self, ↓reduceIte]
    exact convInt_plain q
  have h115 : (ConvSpec.plain 115).conv = 115 ∧ (ConvSpec.plain 115).len = [] := ⟨rfl, rfl⟩
  unfold printf printf_with
  rw [parse_int_str]
  simp only [render, convert, hint, h115, and_self, ↓reduceIte, convStr_plain,
    Option.map_some', hs]
  simp

theorem convInt_wide_zero (w : Nat) :
    convInt ⟨Flags.none, w, Option.none, [], 100⟩ 0
      = some (List.replicate (w - 1) 32 ++ [48]) := by
  have hd : digits 0 = [48] := by decide
  simp [convInt, Flags.none, field, signOf, hd]

/-- The shape of the output of `"%<w>d %s"` for zero: padding to width `w`,
the digit, a space, the unit. -/
theorem render_wide_int_str (w : Nat) (u : CString) :
    render convNum
      [.spec ⟨Flags.none, w, Option.none, [], 100⟩, .lit 32, .spec (ConvSpec.plain 115)]
      [Arg.num (Quantity.int 0), Arg.str u]
      = some (List.replicate (w - 1) 32 ++ (48 :: 32 :: cstr u)) := by
  have hint : convNum ⟨Flags.none, w, Option.none, [], 100⟩ (.int 0)
      = some (List.replicate (w - 1) 32 ++ [48]) := by
    simp only [convNum, true_or, and_self, ↓reduceIte]
    exact convInt_wide_zero w
  have h115 : (ConvSpec.plain 115).conv = 115 ∧ (ConvSpec.plain 115).len = [] := ⟨rfl, rfl⟩
  simp only [render, convert, hint, h115, and_self, ↓reduceIte, convStr_plain,
    Option.map_some']
  simp

/-- The output of `"%2147483647d %s"` for zero: padding in front of the digit,
a space and the unit. -/
theorem printf_wide_int_str (u : CString) :
    printf (utf8 "%2147483647d %s") (.int 0) u =
      .chars (List.replicate (2147483647 - 1) 32 ++ (48 :: 32 :: cstr u)) := by
  unfold printf printf_with
  rw [parse_wide_int_str]
  simp only []
  rw [render_wide_int_str]

/-- On LP64 the output of `"%2147483647d %s"` for zero does not fit `int`,
whatever the unit. -/
theorem wide_int_str_too_long (u : CString) :
    LP64.INT_MAX < (List.replicate (2147483647 - 1) 32 ++ (48 :: 32 :: cstr u)).length := by
  have h : LP64.INT_MAX = 2147483647 := by decide
  rw [List.length_append, List.length_replicate, h]
  simp only [List.length_cons]
  omega

/-! ## The length and content contract -/

/-- C1: whenever the dry run `snprintf(nullptr, 0, format, quantity, unit)`
returns a non-negative count `N`, `to_string` returns a string, and its length
is exactly `N`. -/
theorem to_string_length_eq_dry_run {Q : Type} (P : Platform) (F : Formatter Q)
    (quantity : Q) (unit format : CString) (s : List Byte) (N : Int)
    (hdry : snprintf P F [] 0 format quantity unit = .ok (s, N)) (h0 : 0 ≤ N) :
    ∃ str, to_string P F quantity unit format = .ok str ∧ (str.length : Int) = N := by
  obtain ⟨out, hF, hle, hlen⟩ := snprintf_dry_nonneg P F format quantity unit s N hdry h0
  have hlt := P.int_max_lt
  exact ⟨out, to_string_of_chars P F quantity unit format out hF hle (by omega), hlen⟩

theorem to_string_length_eq_dry_run_witness :
    snprintf LP64 printf [] 0 (utf8 "%.2f %s") (.dbl ⟨7, -1⟩) (utf8 "m") = .ok ([], 6) ∧
    (0 : Int) ≤ 6 ∧
    ∃ str, to_string LP64 printf (.dbl ⟨7, -1⟩) (utf8 "m") (utf8 "%.2f %s") = .ok str ∧
      (str.length : Int) = 6 :=
  ⟨by decide, by decide,
    to_string_length_eq_dry_run LP64 printf (.dbl ⟨7, -1⟩) (utf8 "m") (utf8 "%.2f %s")
      [] 6 (by decide) (by decide)⟩

/-- C2: whenever the dry run returns a non-negative count `N`, the complete
output `out` of the format has `N` bytes, the second pass into the zeroed
`N + 1`-byte buffer stores all of `out` followed by the terminator, and
`to_string` returns `out` itself: the first `N` bytes of that buffer, untruncated,
whatever the size of `N`. -/
theorem to_string_eq_complete_output {Q : Type} (P : Platform) (F : Formatter Q)
    (quantity : Q) (unit format : CString) (s : List Byte) (N : Int)
    (hdry : snprintf P F [] 0 format quantity unit = .ok (s, N)) (h0 : 0 ≤ N) :
    ∃ out, F format quantity unit = .chars out ∧ (out.length : Int) = N ∧
      size_add P (to_size_t P N) 1 = out.length + 1 ∧
      snprintf P F (vector (out.length + 1)) (out.length + 1) format quantity unit
        = .ok (out ++ [0], N) ∧
      (out ++ [0]).take ((out ++ [0]).length - 1) = out ∧
      to_string P F quantity unit format = .ok out := by
  obtain ⟨out, hF, hle, hlen⟩ := snprintf_dry_nonneg P F format quantity unit s N hdry h0
  have hlt := P.int_max_lt
  refine ⟨out, hF, hlen, ?_, ?_, by simp,
    to_string_of_chars P F quantity unit format out hF hle (by omega)⟩
  · rw [← hlen, to_size_t_nonneg P _ (by omega)]
    exact Nat.mod_eq_of_lt (by omega)
  · rw [← hlen]
    exact snprintf_second_pass P F format quantity unit out hF hle

theorem to_string_eq_complete_output_witness :
    snprintf LP64 printf [] 0 (utf8 "%.10f %s") (.dbl ⟨1, 100⟩) (utf8 "kg") = .ok ([], 45) ∧
    (0 : Int) ≤ 45 ∧
    ∃ out, printf (utf8 "%.10f %s") (.dbl ⟨1, 100⟩) (utf8 "kg") = .chars out ∧
      (out.length : Int) = 45 ∧
      size_add LP64 (to_size_t LP64 45) 1 = out.length + 1 ∧
      snprintf LP64 printf (vector (out.length + 1)) (out.length + 1) (utf8 "%.10f %s")
        (.dbl ⟨1, 100⟩) (utf8 "kg") = .ok (out ++ [0], 45) ∧
      (out ++ [0]).take ((out ++ [0]).length - 1) = out ∧
      to_string LP64 printf (.dbl ⟨1, 100⟩) (utf8 "kg") (utf8 "%.10f %s") = .ok out :=
  ⟨by decide, by decide,
    to_string_eq_complete_output LP64 printf (.dbl ⟨1, 100⟩) (utf8 "kg")
      (utf8 "%.10f %s") [] 45 (by decide) (by decide)⟩

/-! ## Buffer bounds and the negative dry run -/

/-- C9: when the dry run returns `N` with `0 ≤ N < 2 ^ w - 1`, the working
buffer has `N + 1 ≥ 1` bytes, so `buf[0]` and `buf.cend() - 1` are inside it:
the call does not end out of range but returns a string of `N` bytes, which is
the empty string exactly when `N = 0`. -/
theorem to_string_buffer_in_bounds {Q : Type} (P : Platform) (F : Formatter Q)
    (quantity : Q) (unit format : CString) (s : List Byte) (N : Int)
    (hdry : snprintf P F [] 0 format quantity unit = .ok (s, N))
    (h0 : 0 ≤ N) (hN : N < 2 ^ P.size_bits - 1) :
    ((vector (size_add P (to_size_t P N) 1)).length : Int) = N + 1 ∧
    1 ≤ (vector (size_add P (to_size_t P N) 1)).length ∧
    to_string P F quantity unit format ≠ .error .out_of_range ∧
    (∃ str, to_string P F quantity unit format = .ok str ∧ (str.length : Int) = N) ∧
    (to_string P F quantity unit format = .ok [] ↔ N = 0) := by
  obtain ⟨out, hF, hle, hlen⟩ := snprintf_dry_nonneg P F format quantity unit s N hdry h0
  have hlt : out.length + 1 < 2 ^ P.size_bits := by
    have h1 : ((out.length + 1 : Nat) : Int) < ((2 ^ P.size_bits : Nat) : Int) := by
      push_cast
      omega
    exact_mod_cast h1
  have hres := to_string_of_chars P F quantity unit format out hF hle hlt
  have hsz : size_add P (to_size_t P N) 1 = out.length + 1 := by
    rw [← hlen, to_size_t_nonneg P _ (by omega)]
    exact Nat.mod_eq_of_lt hlt
  rw [hsz, vector_length, hres]
  refine ⟨by push_cast; omega, by omega, by simp, ⟨out, rfl, hlen⟩, ?_⟩
  constructor
  · intro h
    simp only [Except.ok.injEq] at h
    rw [h] at hlen
    simpa using hlen.symm
  · intro h
    rw [h] at hlen
    have : out = [] := List.length_eq_zero.mp (by exact_mod_cast hlen)
    rw [this]

theorem to_string_buffer_in_bounds_witness :
    snprintf LP64 printf [] 0 (utf8 "") (.int 0) (utf8 "kg") = .ok ([], 0) ∧
    (0 : Int) ≤ 0 ∧ (0 : Int) < 2 ^ LP64.size_bits - 1 ∧
    ((vector (size_add LP64 (to_size_t LP64 0) 1)).length : Int) = 0 + 1 ∧
    1 ≤ (vector (size_add LP64 (to_size_t LP64 0) 1)).length ∧
    to_string LP64 printf (.int 0) (utf8 "kg") (utf8 "") ≠ .error .out_of_range ∧
    (∃ str, to_string LP64 printf (.int 0) (utf8 "kg") (utf8 "") = .ok str ∧
      (str.length : Int) = 0) ∧
    (to_string LP64 printf (.int 0) (utf8 "kg") (utf8 "") = .ok [] ↔ (0 : Int) = 0) :=
  ⟨by decide, by decide, by decide,
    to_string_buffer_in_bounds LP64 printf (.int 0) (utf8 "kg") (utf8 "") [] 0
      (by decide) (by decide) (by decide)⟩

/-- C10: when the dry run returns a negative `r`, `len` is `2 ^ w + r`.  For
`r = -1` that is `2 ^ w - 1`, `len + 1` wraps to `0`, the buffer is empty, and
with no check in between the call goes on to element 0 of the empty buffer
(out of range).  For `r < -1` the requested buffer size is `2 ^ w + r + 1`. -/
theorem to_string_negative_dry_run_wraps {Q : Type} (P : Platform)
    (F : Formatter Q) (quantity : Q) (unit format : CString) (s : List Byte) (r : Int)
    (hdry : snprintf P F [] 0 format quantity unit = .ok (s, r)) (hneg : r < 0) :
    (to_size_t P r : Int) = 2 ^ P.size_bits + r ∧
    (if r = -1 then
      to_size_t P r = 2 ^ P.size_bits - 1 ∧
      size_add P (to_size_t P r) 1 = 0 ∧
      vector (size_add P (to_size_t P r) 1) = [] ∧
      to_string P F quantity unit format = .error .out_of_range
    else
      (size_add P (to_size_t P r) 1 : Int) = 2 ^ P.size_bits + r + 1) := by
  have hrange := (snprintf_int_range P F [] 0 format quantity unit s r hdry).1
  have hlt := P.int_max_lt
  have hmin : -((2 : Int) ^ P.size_bits) ≤ r := by
    have h1 : ((P.INT_MAX + 1 : Nat) : Int) < ((2 ^ P.size_bits : Nat) : Int) := by
      exact_mod_cast hlt
    have h2 : ((P.INT_MAX + 1 : Nat) : Int) = (2 : Int) ^ (P.int_bits - 1) := by
      rw [P.INT_MAX_succ]
      push_cast
      rfl
    unfold Platform.INT_MIN at hrange
    push_cast at h1 h2
    omega
  have hsz := to_size_t_neg P r hneg hmin
  have hpos : 0 < 2 ^ P.size_bits := Nat.two_pow_pos _
  have hposz : (0 : Int) < (2 : Int) ^ P.size_bits := by positivity
  refine ⟨hsz, ?_⟩
  split
  · rename_i h1
    subst h1
    have h2 : to_size_t P (-1) + 1 = 2 ^ P.size_bits := by
      have : ((to_size_t P (-1) + 1 : Nat) : Int) = ((2 ^ P.size_bits : Nat) : Int) := by
        push_cast
        omega
      exact_mod_cast this
    have h3 : size_add P (to_size_t P (-1)) 1 = 0 := by
      simp [size_add, h2]
    refine ⟨by omega, h3, by rw [h3]; rfl,
      to_string_of_minus_one P F quantity unit format s hdry⟩
  · rename_i h1
    have h2 : ((to_size_t P r + 1 : Nat) : Int) < ((2 ^ P.size_bits : Nat) : Int) := by
      push_cast
      omega
    have h3 : to_size_t P r + 1 < 2 ^ P.size_bits := by exact_mod_cast h2
    unfold size_add
    rw [Nat.mod_eq_of_lt h3]
    push_cast
    omega

theorem to_string_negative_dry_run_wraps_witness :
    snprintf LP64 printf [] 0 (utf8 "%2147483647d %s") (.int 0) (utf8 "kg") = .ok ([], -1) ∧
    (-1 : Int) < 0 ∧
    (to_size_t LP64 (-1) : Int) = 2 ^ LP64.size_bits + -1 ∧
    (if (-1 : Int) = -1 then
      to_size_t LP64 (-1) = 2 ^ LP64.size_bits - 1 ∧
      size_add LP64 (to_size_t LP64 (-1)) 1 = 0 ∧
      vector (size_add LP64 (to_size_t LP64 (-1)) 1) = [] ∧
      to_string LP64 printf (.int 0) (utf8 "kg") (utf8 "%2147483647d %s") = .error .out_of_range
    else
      (size_add LP64 (to_size_t LP64 (-1)) 1 : Int) = 2 ^ LP64.size_bits + -1 + 1) :=
  have hdry := (to_string_of_too_long LP64 printf (.int 0) (utf8 "kg")
    (utf8 "%2147483647d %s") _ (printf_wide_int_str _) (wide_int_str_too_long _)).1
  ⟨hdry, by decide,
    to_string_negative_dry_run_wraps LP64 printf (.int 0) (utf8 "kg")
      (utf8 "%2147483647d %s") [] (-1) hdry (by decide)⟩

/-- C3 (the code at an input whose dry run is negative): on LP64 the output of
`"%2147483647d %s"` for `0` and `"kg"` has 2147483650 bytes, more than
`INT_MAX`, so the dry run returns `-1`; `to_string` then neither returns a
string nor signals a formatting error: `len + 1` wraps to `0` and the call
takes element 0 of an empty buffer. -/
theorem to_string_negative_dry_run_unchecked :
    snprintf LP64 printf [] 0 (utf8 "%2147483647d %s") (.int 0) (utf8 "kg") = .ok ([], -1) ∧
    size_add LP64 (to_size_t LP64 (-1)) 1 = 0 ∧
    to_string LP64 printf (.int 0) (utf8 "kg") (utf8 "%2147483647d %s")
      = .error .out_of_range := by
  have h := to_string_of_too_long LP64 printf (.int 0) (utf8 "kg")
    (utf8 "%2147483647d %s") _ (printf_wide_int_str _) (wide_int_str_too_long _)
  exact ⟨h.1, by decide, h.2⟩

/-! ## Scenarios with the `printf` engine -/

/-- C4 (as stated, fails): for the unit label of 2147483647 bytes `'A'` on
LP64 the output of `"%d %s"` for `0` has 2147483649 bytes, more than
`INT_MAX`; the call does not return the decimal digits, a space and the unit,
it ends out of range. -/
theorem huge_unit_breaks_int_str :
    to_string LP64 printf (.int 0) (List.replicate 2147483647 65) (utf8 "%d %s")
      = .error .out_of_range ∧
    to_string LP64 printf (.int 0) (List.replicate 2147483647 65) (utf8 "%d %s")
      ≠ .ok (utf8 (Int.repr 0) ++ utf8 " " ++ cstr (List.replicate 2147483647 65)) := by
  have hlong : LP64.INT_MAX <
      (utf8 (Int.repr 0) ++ utf8 " " ++ cstr (List.replicate 2147483647 65)).length := by
    rw [cstr_replicate _ _ (by decide), List.length_append, List.length_replicate]
    decide
  have h := (to_string_of_too_long LP64 printf (.int 0) (List.replicate 2147483647 65)
    (utf8 "%d %s") _ (printf_int_str 0 _) hlong).2
  refine ⟨h, ?_⟩
  intro h2
  rw [h] at h2
  cases h2

/-- C4 (amended): for every integer `q` and unit label `u` whose output
(digits, space, unit) has at most `INT_MAX` bytes, `to_string(q, u, "%d %s")`
returns the decimal representation of `q`, one space, and `u`; for `q = 0`
and `u = "kg"` that is `"0 kg"`. -/
theorem to_string_int_str (P : Platform) (q : Int) (u : CString)
    (hfit : (utf8 (Int.repr q)).length + 1 + (cstr u).length ≤ P.INT_MAX) :
    to_string P printf (.int q) u (utf8 "%d %s")
      = .ok (utf8 (Int.repr q) ++ utf8 " " ++ cstr u) ∧
    to_string P printf (.int 0) (utf8 "kg") (utf8 "%d %s") = .ok (utf8 "0 kg") := by
  have hlt := P.int_max_lt
  have hge := P.int_max_ge
  have hs : (utf8 " ").length = 1 := by decide
  constructor
  · apply to_string_of_chars P printf _ _ _ _ (printf_int_str q u)
    · simp only [List.length_append, hs]
      omega
    · simp only [List.length_append, hs]
      omega
  · have h0 : printf (utf8 "%d %s") (.int 0) (utf8 "kg") = .chars (utf8 "0 kg") := by decide
    have hl : (utf8 "0 kg").length = 4 := by decide
    exact to_string_of_chars P printf _ _ _ _ h0 (by omega) (by omega)

theorem to_string_int_str_witness :
    (utf8 (Int.repr (-120))).length + 1 + (cstr (utf8 "kg")).length ≤ LP64.INT_MAX ∧
    to_string LP64 printf (.int (-120)) (utf8 "kg") (utf8 "%d %s")
      = .ok (utf8 (Int.repr (-120)) ++ utf8 " " ++ cstr (utf8 "kg")) ∧
    to_string LP64 printf (.int 0) (utf8 "kg") (utf8 "%d %s") = .ok (utf8 "0 kg") :=
  ⟨by decide, to_string_int_str LP64 (-120) (utf8 "kg") (by decide)⟩

/-- C5: `to_string(3.5, "m", "%.2f %s")` returns exactly the six bytes
`"3.50 m"`: the quantity with two decimal places, a space, the unit. -/
theorem to_string_fixed_two_places (P : Platform) :
    Double.toRat ⟨7, -1⟩ = 3.5 ∧
    to_string P printf (.dbl ⟨7, -1⟩) (utf8 "m") (utf8 "%.2f %s") = .ok (utf8 "3.50 m") ∧
    (utf8 "3.50 m").length = 6 ∧
    utf8 "3.50 m" = utf8 "3.50" ++ utf8 " " ++ cstr (utf8 "m") := by
  have hlt := P.int_max_lt
  have hge := P.int_max_ge
  have h0 : printf (utf8 "%.2f %s") (.dbl ⟨7, -1⟩) (utf8 "m") = .chars (utf8 "3.50 m") := by
    decide
  have hl : (utf8 "3.50 m").length = 6 := by decide
  refine ⟨?_, to_string_of_chars P printf _ _ _ _ h0 (by omega) (by omega), hl, by decide⟩
  simp only [Double.toRat]
  norm_num

/-- C6: `to_string(-12.0, "°C", "%.1f %s")` returns `"-12.0 °C"`: the minus
sign and one decimal place are kept, and all three bytes of the UTF-8 unit
label `C2 B0 43` are in the result, which has nine bytes. -/
theorem to_string_negative_non_ascii_unit (P : Platform) :
    Double.toRat ⟨-3, 2⟩ = -12 ∧
    to_string P printf (.dbl ⟨-3, 2⟩) (utf8 "°C") (utf8 "%.1f %s") = .ok (utf8 "-12.0 °C") ∧
    cstr (utf8 "°C") = [0xC2, 0xB0, 0x43] ∧
    utf8 "-12.0 °C" = utf8 "-12.0" ++ utf8 " " ++ cstr (utf8 "°C") ∧
    (utf8 "-12.0 °C").length = 9 := by
  have hlt := P.int_max_lt
  have hge := P.int_max_ge
  have h0 : printf (utf8 "%.1f %s") (.dbl ⟨-3, 2⟩) (utf8 "°C") = .chars (utf8 "-12.0 °C") := by
    decide
  have hl : (utf8 "-12.0 °C").length = 9 := by decide
  refine ⟨?_, to_string_of_chars P printf _ _ _ _ h0 (by omega) (by omega), by decide,
    by decide, hl⟩
  simp only [Double.toRat]
  norm_num

/-- C7 (as stated, fails): `"%d %5s"` has two well-formed conversion
specifications, yet with the empty unit the result has 7 bytes (the field is
padded to width 5), while the output for the unit `"kg"` also has 7 bytes:
`7 ≠ 7 - 2`.  And for `"%2147483647d %s"` the output for the empty unit is
longer than `INT_MAX` on LP64, so that no rendering is returned at all. -/
theorem field_width_breaks_empty_unit :
    parse .text (utf8 "%d %5s") =
      some [.spec (ConvSpec.plain 100), .lit 32,
        .spec ⟨Flags.none, 5, Option.none, [], 115⟩] ∧
    to_string LP64 printf (.int 0) (utf8 "") (utf8 "%d %5s") = .ok (utf8 "0      ") ∧
    printf (utf8 "%d %5s") (.int 0) (utf8 "kg") = .chars (utf8 "0    kg") ∧
    (utf8 "0      ").length ≠ (utf8 "0    kg").length - (cstr (utf8 "kg")).length ∧
    to_string LP64 printf (.int 0) (utf8 "") (utf8 "%2147483647d %s")
      = .error .out_of_range := by
  refine ⟨by decide, by decide, by decide, by decide, ?_⟩
  exact (to_string_of_too_long LP64 printf (.int 0) (utf8 "")
    (utf8 "%2147483647d %s") _ (printf_wide_int_str _) (wide_int_str_too_long _)).2

/-- The unit argument under a specification without field width or
precision: if the empty string is converted at all, every string is copied
unchanged. -/
theorem convert_str_no_width {Q : Type} (numeric : ConvSpec → Q → Option (List Byte))
    (c : ConvSpec) (hw : c.width = 0) (hp : c.prec = Option.none)
    (y : List Byte) (h : convert numeric c (.str []) = some y) (u : CString) :
    y = [] ∧ convert numeric c (.str u) = some (cstr u) := by
  simp only [convert, convStr_no_width c hw hp] at h ⊢
  split at h
  · split at h
    · cases h
    · rename_i h1 h2
      simp only [Option.some.injEq] at h
      rw [if_pos h1, if_neg h2]
      exact ⟨by rw [← h]; rfl, rfl⟩
  · cases h

/-- C7 (amended): for every quantity, of any numeric type `Q` and whatever
its numeric conversions `numeric` produce, and every format with exactly two
conversion specifications that is defined for the quantity and a string, whose
second specification has no field width and no precision, and whose output for
the empty unit has at most `INT_MAX` bytes: `to_string(quantity, "", format)`
returns the output with nothing in the place of the unit, and its length is
the length of the output for any unit `u` minus the length of `u`; for
`"%d %s"` and `0` the result is `"0 "`, of length 2. -/
theorem to_string_empty_unit {Q : Type} (P : Platform)
    (numeric : ConvSpec → Q → Option (List Byte)) (quantity : Q)
    (format : CString) (ds : List Directive) (c1 c2 : ConvSpec)
    (hparse : parse .text format = some ds) (hspecs : specsOf ds = [c1, c2])
    (hwidth : c2.width = 0) (hprec : c2.prec = Option.none)
    (out : List Byte) (hout : printf_with numeric format quantity [] = .chars out)
    (hfit : out.length ≤ P.INT_MAX) :
    to_string P (printf_with numeric) quantity [] format = .ok out ∧
    (∃ pre post, out = pre ++ post ∧
      ∀ u, printf_with numeric format quantity u = .chars (pre ++ cstr u ++ post)) ∧
    (∀ u, ∃ out_u, printf_with numeric format quantity u = .chars out_u ∧
      out.length = out_u.length - (cstr u).length) ∧
    to_string P printf (.int 0) [] (utf8 "%d %s") = .ok (utf8 "0 ") ∧
    (utf8 "0 ").length = 2 := by
  have hlt := P.int_max_lt
  have hge := P.int_max_ge
  have hp : ∀ u, printf_with numeric format quantity u =
      (match render numeric ds [.num quantity, .str u] with
        | Option.none => Rendered.undefined
        | some o => Rendered.chars o) := by
    intro u
    unfold printf_with
    rw [hparse]
  have hshape : ∃ pre post, out = pre ++ post ∧
      ∀ u, printf_with numeric format quantity u = .chars (pre ++ cstr u ++ post) := by
    rw [hp, render_two_specs numeric ds c1 c2 hspecs] at hout
    cases h1 : convert numeric c1 (.num quantity) with
    | none => simp [h1] at hout
    | some x =>
      cases h2 : convert numeric c2 (.str []) with
      | none => simp [h1, h2] at hout
      | some y =>
        obtain ⟨hy, -⟩ := convert_str_no_width numeric c2 hwidth hprec y h2 []
        simp only [h1, h2, hy, Rendered.chars.injEq] at hout
        refine ⟨litsBefore ds ++ (x ++ litsBefore (afterFirst ds)),
          litsBefore (afterFirst (afterFirst ds)), by rw [← hout]; simp, ?_⟩
        intro u
        rw [hp, render_two_specs numeric ds c1 c2 hspecs, h1,
          (convert_str_no_width numeric c2 hwidth hprec y h2 u).2]
        simp
  have h0 : printf (utf8 "%d %s") (.int 0) [] = .chars (utf8 "0 ") := by decide
  have hl : (utf8 "0 ").length = 2 := by decide
  refine ⟨to_string_of_chars P (printf_with numeric) _ _ _ _ hout hfit (by omega), hshape, ?_,
    to_string_of_chars P printf _ _ _ _ h0 (by omega) (by omega), hl⟩
  obtain ⟨pre, post, hsplit, hu⟩ := hshape
  intro u
  refine ⟨_, hu u, ?_⟩
  rw [hsplit]
  simp only [List.length_append]
  omega

theorem to_string_empty_unit_witness :
    parse .text (utf8 "%+ld [%-s]") =
      some [.spec ⟨⟨false, true, false, false, false⟩, 0, Option.none, [108], 100⟩,
        .lit 32, .lit 91,
        .spec ⟨⟨true, false, false, false, false⟩, 0, Option.none, [], 115⟩, .lit 93] ∧
    specsOf [.spec ⟨⟨false, true, false, false, false⟩, 0, Option.none, [108], 100⟩,
        .lit 32, .lit 91,
        .spec ⟨⟨true, false, false, false, false⟩, 0, Option.none, [], 115⟩, .lit 93] =
      [⟨⟨false, true, false, false, false⟩, 0, Option.none, [108], 100⟩,
        ⟨⟨true, false, false, false, false⟩, 0, Option.none, [], 115⟩] ∧
    printf_with convLong (utf8 "%+ld [%-s]") 5000000000 []
      = .chars (utf8 "+5000000000 []") ∧
    (utf8 "+5000000000 []").length ≤ LP64.INT_MAX ∧
    to_string LP64 (printf_with convLong) 5000000000 [] (utf8 "%+ld [%-s]")
      = .ok (utf8 "+5000000000 []") ∧
    (∃ pre post, utf8 "+5000000000 []" = pre ++ post ∧
      ∀ u, printf_with convLong (utf8 "%+ld [%-s]") 5000000000 u
        = .chars (pre ++ cstr u ++ post)) ∧
    (∀ u, ∃ out_u, printf_with convLong (utf8 "%+ld [%-s]") 5000000000 u = .chars out_u ∧
      (utf8 "+5000000000 []").length = out_u.length - (cstr u).length) ∧
    to_string LP64 printf (.int 0) [] (utf8 "%d %s") = .ok (utf8 "0 ") ∧
    (utf8 "0 ").length = 2 :=
  ⟨by decide, by decide, by decide, by decide,
    to_string_empty_unit LP64 convLong 5000000000 (utf8 "%+ld [%-s]")
      [.spec ⟨⟨false, true, false, false, false⟩, 0, Option.none, [108], 100⟩,
        .lit 32, .lit 91,
        .spec ⟨⟨true, false, false, false, false⟩, 0, Option.none, [], 115⟩, .lit 93]
      ⟨⟨false, true, false, false, false⟩, 0, Option.none, [108], 100⟩
      ⟨⟨true, false, false, false, false⟩, 0, Option.none, [], 115⟩
      (by decide) (by decide) rfl rfl (utf8 "+5000000000 []") (by decide) (by decide)⟩

end Metrology
